import Mathlib

/-
Verification development for the kalix numerical-primitives layer
(`src/kalix/base/compensated_double.h`, `src/kalix/base/vector.h`,
`src/kalix/base/sparse_vector_sum.h`).

Embedding conventions:
* The platform `double` is idealised as the exact rationals `ℚ`; every
  arithmetic expression of the source is translated literally, evaluated
  exactly.  Claims about the IEEE-754 rounding error itself are therefore
  outside this embedding.
* `std::vector` backing stores become `List`s; an indexed read
  `a[i]` becomes `List.getD i default` and an indexed write `a[i] = v`
  becomes `List.set i v` (out-of-range access is undefined behaviour in
  the source; `getD`/`set` make the model total).
* `int64_t` counters that can hold the negative "invalidated" sentinel are
  `ℤ`; array indices are `ℕ` (negative indices are undefined behaviour).
-/

attribute [local semireducible] Rat.mul Rat.add Rat.inv Rat.sub

set_option maxRecDepth 8000

namespace Kalix

/-- Double-double value `(hi, lo)` of `CompensatedDouble`
(`compensated_double.h`); the two native words are idealised as exact
rationals. -/
structure CompensatedDouble where
  hi : ℚ
  lo : ℚ
deriving DecidableEq

namespace CompensatedDouble

/-- Knuth TwoSum (`two_sum`): `x = a + b; z = x - a; y = (a - (x - z)) + (b - z)`,
translated literally over exact arithmetic. -/
def two_sum (a b : ℚ) : ℚ × ℚ :=
  let x := a + b
  let z := x - a
  (x, (a - (x - z)) + (b - z))

/-- Veltkamp split (`split`): `c = factor * a; x = c - (c - a); y = a - x`
with `factor = 2^27 + 1`. -/
def split (a : ℚ) : ℚ × ℚ :=
  let factor : ℚ := (2 ^ 27 + 1 : ℚ)
  let c := factor * a
  let x := c - (c - a)
  (x, a - x)

/-- Dekker TwoProduct (`two_product`): `x = a * b`, then the split-based
error term `y = a2*b2 - (((x - a1*b1) - a2*b1) - a1*b2)`. -/
def two_product (a b : ℚ) : ℚ × ℚ :=
  let x := a * b
  let a1 := (split a).1
  let a2 := (split a).2
  let b1 := (split b).1
  let b2 := (split b).2
  (x, a2 * b2 - (((x - a1 * b1) - a2 * b1) - a1 * b2))

/-- Value-initialised `CompensatedDouble{}` (both words zero). -/
def zero : CompensatedDouble := ⟨0, 0⟩

/-- Constructor `CompensatedDouble(val)`: `hi = val, lo = 0`. -/
def ofDouble (val : ℚ) : CompensatedDouble := ⟨val, 0⟩

/-- Conversion `static_cast<double>`: returns `hi + lo`. -/
def toDouble (x : CompensatedDouble) : ℚ := x.hi + x.lo

/-- In-place `operator+=(double)`: `two_sum(hi, c, v, hi); lo += c`.
Note the argument order `(v, hi)`. -/
def addDoubleAssign (x : CompensatedDouble) (v : ℚ) : CompensatedDouble :=
  let p := two_sum v x.hi
  ⟨p.1, x.lo + p.2⟩

/-- In-place `operator+=(CompensatedDouble)`: `(*this) += v.hi; lo += v.lo`. -/
def addCompAssign (x v : CompensatedDouble) : CompensatedDouble :=
  let y := x.addDoubleAssign v.hi
  ⟨y.hi, y.lo + v.lo⟩

/-- Binary `operator+(double)`: `two_sum(res.hi, res.lo, hi, v); res.lo += lo`.
Note the argument order `(hi, v)`, unlike `operator+=`. -/
def addDouble (x : CompensatedDouble) (v : ℚ) : CompensatedDouble :=
  let p := two_sum x.hi v
  ⟨p.1, p.2 + x.lo⟩

/-- Binary `operator-(double)`: `two_sum(res.hi, res.lo, hi, -v); res.lo += lo`. -/
def subDouble (x : CompensatedDouble) (v : ℚ) : CompensatedDouble :=
  let p := two_sum x.hi (-v)
  ⟨p.1, p.2 + x.lo⟩

/-- Binary `operator-(CompensatedDouble)`: `res = (*this) - v.hi; res.lo -= v.lo`. -/
def subComp (x v : CompensatedDouble) : CompensatedDouble :=
  let r := x.subDouble v.hi
  ⟨r.hi, r.lo - v.lo⟩

/-- Binary `operator*(double)`: `two_product(res.hi, res.lo, hi, v); res += lo * v`. -/
def mulDouble (x : CompensatedDouble) (v : ℚ) : CompensatedDouble :=
  let p := two_product x.hi v
  let res : CompensatedDouble := ⟨p.1, p.2⟩
  res.addDoubleAssign (x.lo * v)

/-- In-place `operator/=(double)`: approximate quotient
`d = (hi/v, lo/v)`, residual `c = d * v - (*this)` scaled back by `v`,
result `d - c`. -/
def divDouble (x : CompensatedDouble) (v : ℚ) : CompensatedDouble :=
  let d : CompensatedDouble := ⟨x.hi / v, x.lo / v⟩
  let c := (d.mulDouble v).subComp x
  let c2 : CompensatedDouble := ⟨c.hi / v, c.lo / v⟩
  d.subComp c2

/-- Unary negation: `{-hi, -lo}`. -/
def neg (x : CompensatedDouble) : CompensatedDouble := ⟨-x.hi, -x.lo⟩

/-- `abs`: `v < 0 ? -v : v`, the comparison collapsing to native precision. -/
def cabs (x : CompensatedDouble) : CompensatedDouble :=
  if x.toDouble < 0 then x.neg else x

/-- Model of the platform `std::floor` on the collapsed value (exact on ℚ). -/
def nativeFloor (q : ℚ) : ℚ := (⌊q⌋ : ℚ)

/-- Model of the platform `std::ceil` on the collapsed value (exact on ℚ). -/
def nativeCeil (q : ℚ) : ℚ := (⌈q⌉ : ℚ)

/-- Newton iteration for the integer square root (`isqrt` helper), with an
explicit fuel argument so that it is structurally recursive. -/
def isqrtGo : ℕ → ℕ → ℕ → ℕ
  | 0, _, guess => guess
  | fuel + 1, n, guess =>
    let next := (guess + n / guess) / 2
    if next < guess then isqrtGo fuel n next else guess

/-- Integer square root (rounded down), used to model the platform square
root on rationals. -/
def isqrt (n : ℕ) : ℕ :=
  if n ≤ 1 then n else isqrtGo n n (n / 2 + 1)

/-- Model of the platform `std::sqrt`: non-negative rational approximation
that is exact on perfect squares (as IEEE-754 square root is), `0` below `0`.
Only `nativeSqrt 0 = 0` and exactness on perfect squares are relied on. -/
def nativeSqrt (q : ℚ) : ℚ :=
  if q ≤ 0 then 0 else (isqrt (q.num.toNat * q.den) : ℚ) / (q.den : ℚ)

/-- `sqrt(CompensatedDouble)`: native seed `c = sqrt(hi + lo)`; if the seed
is zero return exact zero (division-by-zero guard); otherwise one Newton
step `res = v / c; res += c; res.hi *= 0.5; res.lo *= 0.5`. -/
def csqrt (v : CompensatedDouble) : CompensatedDouble :=
  let c := nativeSqrt (v.hi + v.lo)
  if c = 0 then ofDouble 0
  else
    let res := (v.divDouble c).addDoubleAssign c
    ⟨res.hi * (1 / 2), res.lo * (1 / 2)⟩

/-- `floor(CompensatedDouble)`: special case for `|x| < 1` (collapsed
comparison), else `two_sum(floor(x), floor(x - floor(x)))`. -/
def cfloor (x : CompensatedDouble) : CompensatedDouble :=
  if (cabs x).toDouble < 1 then
    if x.toDouble = 0 ∨ x.toDouble > 0 then ofDouble 0
    else ofDouble (-1)
  else
    let floor_x := nativeFloor x.toDouble
    let p := two_sum floor_x (nativeFloor (x.subDouble floor_x).toDouble)
    ⟨p.1, p.2⟩

/-- `ceil(CompensatedDouble)`: special case for `|x| < 1` (collapsed
comparison), else `two_sum(ceil(x), ceil(x - ceil(x)))`. -/
def cceil (x : CompensatedDouble) : CompensatedDouble :=
  if (cabs x).toDouble < 1 then
    if x.toDouble = 0 ∨ x.toDouble < 0 then ofDouble 0
    else ofDouble 1
  else
    let ceil_x := nativeCeil x.toDouble
    let p := two_sum ceil_x (nativeCeil (x.subDouble ceil_x).toDouble)
    ⟨p.1, p.2⟩

/-- `round(CompensatedDouble)`: `floor(x + 0.5)` (the `+` being
`operator+(double)`). -/
def cround (x : CompensatedDouble) : CompensatedDouble :=
  cfloor (x.addDouble (1 / 2))

end CompensatedDouble

/-- The sentinel constant `std::numeric_limits<double>::min()` used by
`SparseVectorSum::add`: the smallest positive normalised double, `2^-1022`. -/
def dblMin : ℚ := 1 / ((2 ^ 1022 : ℕ) : ℚ)

/-- Sparse accumulator `SparseVectorSum` (`sparse_vector_sum.h`): dense
storage of `CompensatedDouble` plus the list of indices holding non-zero
(or sentinel-zero) values. -/
structure SparseVectorSum where
  values : List CompensatedDouble
  non_zero_indices : List ℕ
deriving DecidableEq

namespace SparseVectorSum

/-- Constructor `SparseVectorSum(dimension)`: `set_dimension` resizes the
dense store to `dimension` value-initialised elements (the index list is
only reserved, so stays empty). -/
def ofDimension (dimension : ℕ) : SparseVectorSum :=
  ⟨List.replicate dimension CompensatedDouble.zero, []⟩

/-- Overload `add(index, double)`: if `values[index] != 0.0` (collapsed
comparison) accumulate in place; otherwise assign `CompensatedDouble(value)`
and push the index.  Then the sentinel step: if `values[index] == 0.0`,
overwrite with `CompensatedDouble(std::numeric_limits<double>::min())`. -/
def addD (s : SparseVectorSum) (index : ℕ) (value : ℚ) : SparseVectorSum :=
  let v0 := s.values.getD index CompensatedDouble.zero
  let vals :=
    if v0.toDouble ≠ 0 then s.values.set index (v0.addDoubleAssign value)
    else s.values.set index (CompensatedDouble.ofDouble value)
  let nzi :=
    if v0.toDouble ≠ 0 then s.non_zero_indices
    else s.non_zero_indices ++ [index]
  if (vals.getD index CompensatedDouble.zero).toDouble = 0 then
    ⟨vals.set index (CompensatedDouble.ofDouble dblMin), nzi⟩
  else ⟨vals, nzi⟩

/-- Overload `add(index, CompensatedDouble)`: same structure as the double
overload, accumulating with `operator+=(CompensatedDouble)` and assigning
the value directly on first touch. -/
def addC (s : SparseVectorSum) (index : ℕ) (value : CompensatedDouble) : SparseVectorSum :=
  let v0 := s.values.getD index CompensatedDouble.zero
  let vals :=
    if v0.toDouble ≠ 0 then s.values.set index (v0.addCompAssign value)
    else s.values.set index value
  let nzi :=
    if v0.toDouble ≠ 0 then s.non_zero_indices
    else s.non_zero_indices ++ [index]
  if (vals.getD index CompensatedDouble.zero).toDouble = 0 then
    ⟨vals.set index (CompensatedDouble.ofDouble dblMin), nzi⟩
  else ⟨vals, nzi⟩

/-- `get_value(index)`: the double-precision collapse of the stored value. -/
def get_value (s : SparseVectorSum) (index : ℕ) : ℚ :=
  (s.values.getD index CompensatedDouble.zero).toDouble

/-- `clear()`: if `10 * non_zero_indices.size() < 3 * values.size()` zero
only the tracked entries, otherwise reassign the whole dense store; then
clear the index list. -/
def clear (s : SparseVectorSum) : SparseVectorSum :=
  let vals :=
    if 10 * s.non_zero_indices.length < 3 * s.values.length then
      s.non_zero_indices.foldl (fun d i => d.set i CompensatedDouble.zero) s.values
    else List.replicate s.values.length CompensatedDouble.zero
  ⟨vals, []⟩

end SparseVectorSum

/-- One scatter-add call on a `SparseVectorSum`, either overload. -/
inductive AddOp where
  | d (index : ℕ) (value : ℚ)
  | c (index : ℕ) (value : CompensatedDouble)
deriving DecidableEq

/-- Runs a sequence of `add` calls against an accumulator. -/
def applyAdds (s : SparseVectorSum) (ops : List AddOp) : SparseVectorSum :=
  ops.foldl
    (fun s op =>
      match op with
      | .d i v => s.addD i v
      | .c i v => s.addC i v)
    s

/-- Modelled from the spec: the fixed tiny-value threshold `kTiny` of
`constants.h`, which is not under `src/` (only `vector.h` and the tests
reference it).  The spec fixes no numeric value, only that it is a fixed
positive tiny threshold; `10^-14` is used here. -/
def kTiny : ℚ := 1 / ((10 ^ 14 : ℕ) : ℚ)

/-- Modelled from the spec: the value `kZero` of `constants.h` (not under
`src/`) that `Vector::saxpy` stores when a result's magnitude falls below
`kTiny`.  Per the spec, "the stored value is flushed to exact zero (not to
a sentinel)", so `kZero = 0`. -/
def kZero : ℚ := 0

/-- Hyper-sparse `Vector<Real>` of `vector.h`, with the element type `Real`
idealised as `ℚ`.  The `char_workspace`/`integer_workspace` scratch buffers
(never read by the container) and the non-owning `next_link` pointer are
not tracked. -/
structure Vector where
  non_zero_indices : List ℕ
  dense_values : List ℚ
  packed_indices : List ℕ
  packed_values : List ℚ
  dimension : ℕ
  non_zero_count : ℤ
  packed_element_count : ℤ
  synthetic_clock_tick : ℚ
  should_update_packed_storage : Bool
deriving DecidableEq

namespace Vector

/-- `setup(new_dimension)` on a freshly constructed vector: all arrays
allocated at the dimension (index arrays value-initialised to `0`), counts
and tag reset. -/
def setup (new_dimension : ℕ) : Vector where
  non_zero_indices := List.replicate new_dimension 0
  dense_values := List.replicate new_dimension 0
  packed_indices := List.replicate new_dimension 0
  packed_values := List.replicate new_dimension 0
  dimension := new_dimension
  non_zero_count := 0
  packed_element_count := 0
  synthetic_clock_tick := 0
  should_update_packed_storage := false

/-- The live-index list: the first `non_zero_count` entries of
`non_zero_indices` (spec section 3: "ordered list of the dense positions
considered non-zero; length = live count"). -/
def liveList (v : Vector) : List ℕ :=
  v.non_zero_indices.take v.non_zero_count.toNat

/-- Loop body of `saxpy` over the source's live indices: reads
`original_value`, computes `new_value = original_value + multiplier * x[i]`,
appends the row on fill-in (`original_value == Real{0}`), and stores
`kZero` when `|new_value| < kTiny`, else `new_value`. -/
def saxpyLoop (multiplier : ℚ) (addValues : List ℚ) :
    List ℕ → ℕ → List ℕ → List ℚ → ℕ × List ℕ × List ℚ
  | [], cc, nzi, dense => (cc, nzi, dense)
  | r :: rest, cc, nzi, dense =>
    let original_value := dense.getD r 0
    let new_value := original_value + multiplier * addValues.getD r 0
    let cc2 := if original_value = 0 then cc + 1 else cc
    let nzi2 := if original_value = 0 then nzi.set cc r else nzi
    let stored := if |new_value| < kTiny then kZero else new_value
    saxpyLoop multiplier addValues rest cc2 nzi2 (dense.set r stored)

/-- `saxpy(multiplier, vector_to_add)`: iterates the live entries of the
source vector, with fill-in appended at `current_indices[current_count++]`. -/
def saxpy (v : Vector) (multiplier : ℚ) (x : Vector) : Vector :=
  let rows := x.non_zero_indices.take x.non_zero_count.toNat
  let res := saxpyLoop multiplier x.dense_values rows
    v.non_zero_count.toNat v.non_zero_indices v.dense_values
  { v with
    non_zero_count := (res.1 : ℤ)
    non_zero_indices := res.2.1
    dense_values := res.2.2 }

/-- `clear()`: density heuristic `non_zero_count < 0 ||
non_zero_count > dimension * 0.3` selects a full dense reassignment,
otherwise only the live entries are zeroed; then `clear_scalars()` resets
the flag, the live count and the tag (`0.3` is idealised as `3/10`). -/
def clear (v : Vector) : Vector :=
  let dense :=
    if v.non_zero_count < 0 ∨ (v.non_zero_count : ℚ) > (v.dimension : ℚ) * (3 / 10) then
      List.replicate v.dimension (0 : ℚ)
    else
      (v.non_zero_indices.take v.non_zero_count.toNat).foldl (fun d i => d.set i 0) v.dense_values
  { v with
    dense_values := dense
    should_update_packed_storage := false
    non_zero_count := 0
    synthetic_clock_tick := 0 }

/-- Loop of `prune_small_values` for a non-negative live count: reads
`index = non_zero_indices[i]`; an entry with `|value| >= kTiny` is compacted
to `non_zero_indices[current_count++]`, otherwise its dense entry is zeroed.
The first argument is the remaining iteration count (`non_zero_count - i`). -/
def pruneLoop : ℕ → ℕ → ℕ → List ℕ → List ℚ → ℕ × List ℕ × List ℚ
  | 0, _i, cc, nzi, dense => (cc, nzi, dense)
  | n + 1, i, cc, nzi, dense =>
    let index := nzi.getD i 0
    let value := dense.getD index 0
    if kTiny ≤ |value| then pruneLoop n (i + 1) (cc + 1) (nzi.set cc index) dense
    else pruneLoop n (i + 1) cc nzi (dense.set index 0)

/-- `prune_small_values()`: for a negative (invalidated) live count, scan
the whole dense array zeroing entries below `kTiny`; otherwise run the
compacting loop over the live prefix and store the new count. -/
def prune_small_values (v : Vector) : Vector :=
  if v.non_zero_count < 0 then
    { v with dense_values := v.dense_values.map fun val => if |val| < kTiny then 0 else val }
  else
    let res := pruneLoop v.non_zero_count.toNat 0 0 v.non_zero_indices v.dense_values
    { v with
      non_zero_count := (res.1 : ℤ)
      non_zero_indices := res.2.1
      dense_values := res.2.2 }

/-- `operator==`: field-by-field early-return comparison of dimension,
live count, the whole `non_zero_indices` array, the whole `dense_values`
array, and `synthetic_clock_tick`. -/
def beq (a b : Vector) : Bool :=
  if a.dimension ≠ b.dimension then false
  else if a.non_zero_count ≠ b.non_zero_count then false
  else if a.non_zero_indices ≠ b.non_zero_indices then false
  else if a.dense_values ≠ b.dense_values then false
  else if a.synthetic_clock_tick ≠ b.synthetic_clock_tick then false
  else true

end Vector

/-- Runs a sequence of `saxpy` calls (multiplier and source vector each)
against an accumulator. -/
def applySaxpys (v : Vector) (ops : List (ℚ × Vector)) : Vector :=
  ops.foldl (fun v p => v.saxpy p.1 p.2) v

/-- Reference recursion equivalent to `pruneLoop` over the original live
prefix, used to state its specification. -/
def pruneRef : List ℕ → List ℚ → List ℕ × List ℚ
  | [], dense => ([], dense)
  | r :: rest, dense =>
    if kTiny ≤ |dense.getD r 0| then
      let res := pruneRef rest dense
      (r :: res.1, res.2)
    else pruneRef rest (dense.set r 0)

/-- Equality on vectors as the spec's claim reads it: dimension, live
count, live-index list (the length-`non_zero_count` list of section 3),
dense contents, and tag. -/
def specClaimEq (a b : Vector) : Prop :=
  a.dimension = b.dimension ∧ a.non_zero_count = b.non_zero_count ∧
  a.liveList = b.liveList ∧ a.dense_values = b.dense_values ∧
  a.synthetic_clock_tick = b.synthetic_clock_tick

/-- Bookkeeping invariant of a `SparseVectorSum` reached through `add`
calls: an index outside the tracked list holds the value-initialised zero. -/
def SvsUntouched (s : SparseVectorSum) : Prop :=
  ∀ j, j ∉ s.non_zero_indices → s.values.getD j CompensatedDouble.zero = CompensatedDouble.zero

/-- Bookkeeping invariant of a `Vector` reached through `saxpy` calls: an
index outside the live list holds dense value `0`. -/
def VecUntouched (v : Vector) : Prop :=
  ∀ j, j ∉ v.liveList → v.dense_values.getD j 0 = 0

section ListLemmas

variable {α : Type} (d z : α)

theorem getD_set_ne (l : List α) (a : α) :
    ∀ {i j : ℕ}, i ≠ j → (l.set i a).getD j d = l.getD j d := by
  induction l with
  | nil => intro i j _; rfl
  | cons b t ih =>
    intro i j hij
    cases i with
    | zero =>
      cases j with
      | zero => exact absurd rfl hij
      | succ j => rfl
    | succ i =>
      cases j with
      | zero => rfl
      | succ j => exact ih fun h => hij (by rw [h])

theorem getD_set_self (l : List α) (a : α) :
    ∀ {i : ℕ}, i < l.length → (l.set i a).getD i d = a := by
  induction l with
  | nil => intro i h; exact absurd h (by simp)
  | cons b t ih =>
    intro i h
    cases i with
    | zero => rfl
    | succ i => exact ih (Nat.lt_of_succ_lt_succ h)

theorem getD_set_default (l : List α) :
    ∀ {i : ℕ}, (l.set i d).getD i d = d := by
  induction l with
  | nil => intro i; cases i <;> rfl
  | cons b t ih =>
    intro i
    cases i with
    | zero => rfl
    | succ i => exact ih

theorem take_set_succ (l : List α) (a : α) :
    ∀ {n : ℕ}, n < l.length → (l.set n a).take (n + 1) = l.take n ++ [a] := by
  induction l with
  | nil => intro n h; exact absurd h (by simp)
  | cons b t ih =>
    intro n h
    cases n with
    | zero => rfl
    | succ n =>
      have := ih (Nat.lt_of_succ_lt_succ h)
      simp only [List.set, List.take, List.cons_append]
      rw [this]

theorem take_set_of_le (l : List α) (a : α) :
    ∀ {m n : ℕ}, m ≤ n → (l.set n a).take m = l.take m := by
  induction l with
  | nil => intro m n _; rfl
  | cons b t ih =>
    intro m n hmn
    cases n with
    | zero =>
      cases Nat.le_zero.mp hmn
      rfl
    | succ n =>
      cases m with
      | zero => rfl
      | succ m =>
        simp only [List.set, List.take]
        rw [ih (Nat.le_of_succ_le_succ hmn)]

theorem getD_take (l : List α) :
    ∀ {j n : ℕ}, j < n → (l.take n).getD j d = l.getD j d := by
  induction l with
  | nil => intro j n _; simp [List.getD]
  | cons b t ih =>
    intro j n hj
    cases n with
    | zero => exact absurd hj (Nat.not_lt_zero j)
    | succ n =>
      cases j with
      | zero => rfl
      | succ j => exact ih (Nat.lt_of_succ_lt_succ hj)

theorem getD_replicate : ∀ (n : ℕ) (j : ℕ), (List.replicate n z).getD j z = z := by
  intro n
  induction n with
  | zero => intro j; rfl
  | succ n ih =>
    intro j
    cases j with
    | zero => rfl
    | succ j => exact ih j

theorem foldl_set_getD_preserve (rows : List ℕ) :
    ∀ (dense : List α) (j : ℕ), dense.getD j z = z →
      (rows.foldl (fun dn i => dn.set i z) dense).getD j z = z := by
  induction rows with
  | nil => intro dense j h; exact h
  | cons r rest ih =>
    intro dense j h
    simp only [List.foldl_cons]
    refine ih (dense.set r z) j ?_
    by_cases hrj : r = j
    · subst hrj; exact getD_set_default z dense
    · rw [getD_set_ne z dense z hrj]; exact h

theorem foldl_set_getD_mem (rows : List ℕ) :
    ∀ (dense : List α) (j : ℕ), j ∈ rows →
      (rows.foldl (fun dn i => dn.set i z) dense).getD j z = z := by
  induction rows with
  | nil => intro dense j h; exact absurd h (by simp)
  | cons r rest ih =>
    intro dense j h
    simp only [List.foldl_cons]
    by_cases hjr : j ∈ rest
    · exact ih (dense.set r z) j hjr
    · have hj : j = r := by
        rcases List.mem_cons.mp h with h1 | h2
        · exact h1
        · exact absurd h2 hjr
      subst hj
      exact foldl_set_getD_preserve z rest (dense.set j z) j (getD_set_default z dense)

theorem foldl_set_getD_not_mem (rows : List ℕ) :
    ∀ (dense : List α) (j : ℕ), j ∉ rows →
      (rows.foldl (fun dn i => dn.set i z) dense).getD j z = dense.getD j z := by
  induction rows with
  | nil => intro dense j _; rfl
  | cons r rest ih =>
    intro dense j h
    have hr : r ≠ j := fun hrj => h (hrj ▸ List.mem_cons_self r rest)
    have hrest : j ∉ rest := fun hj => h (List.mem_cons_of_mem r hj)
    simp only [List.foldl_cons]
    rw [ih (dense.set r z) j hrest, getD_set_ne z dense z hr]

end ListLemmas

theorem zero_toDouble : CompensatedDouble.zero.toDouble = 0 := by decide

theorem svsUntouched_ofDimension (d : ℕ) : SvsUntouched (SparseVectorSum.ofDimension d) := by
  intro j _
  exact getD_replicate CompensatedDouble.zero d j

theorem addD_non_zero_indices (s : SparseVectorSum) (index : ℕ) (value : ℚ) :
    (s.addD index value).non_zero_indices =
      if (s.values.getD index CompensatedDouble.zero).toDouble ≠ 0 then s.non_zero_indices
      else s.non_zero_indices ++ [index] := by
  simp only [SparseVectorSum.addD]
  split_ifs <;> rfl

theorem addD_values_ne (s : SparseVectorSum) (index : ℕ) (value : ℚ)
    (j : ℕ) (hj : j ≠ index) :
    (s.addD index value).values.getD j CompensatedDouble.zero =
      s.values.getD j CompensatedDouble.zero := by
  have hji : ∀ l : List CompensatedDouble, ∀ a, (l.set index a).getD j CompensatedDouble.zero
      = l.getD j CompensatedDouble.zero :=
    fun l a => getD_set_ne CompensatedDouble.zero l a fun h => hj h.symm
  simp only [SparseVectorSum.addD]
  split_ifs <;> simp only [hji]

theorem addC_non_zero_indices (s : SparseVectorSum) (index : ℕ) (value : CompensatedDouble) :
    (s.addC index value).non_zero_indices =
      if (s.values.getD index CompensatedDouble.zero).toDouble ≠ 0 then s.non_zero_indices
      else s.non_zero_indices ++ [index] := by
  simp only [SparseVectorSum.addC]
  split_ifs <;> rfl

theorem addC_values_ne (s : SparseVectorSum) (index : ℕ) (value : CompensatedDouble)
    (j : ℕ) (hj : j ≠ index) :
    (s.addC index value).values.getD j CompensatedDouble.zero =
      s.values.getD j CompensatedDouble.zero := by
  have hji : ∀ l : List CompensatedDouble, ∀ a, (l.set index a).getD j CompensatedDouble.zero
      = l.getD j CompensatedDouble.zero :=
    fun l a => getD_set_ne CompensatedDouble.zero l a fun h => hj h.symm
  simp only [SparseVectorSum.addC]
  split_ifs <;> simp only [hji]

theorem svsUntouched_mem_of_ne (s : SparseVectorSum) (index : ℕ)
    (hs : SvsUntouched s) (h : (s.values.getD index CompensatedDouble.zero).toDouble ≠ 0) :
    index ∈ s.non_zero_indices := by
  by_contra hc
  exact h (by rw [hs index hc]; exact zero_toDouble)

theorem svsUntouched_addD (s : SparseVectorSum) (index : ℕ) (value : ℚ)
    (hs : SvsUntouched s) : SvsUntouched (s.addD index value) := by
  intro j hj
  rw [addD_non_zero_indices] at hj
  by_cases h0 : (s.values.getD index CompensatedDouble.zero).toDouble ≠ 0
  · rw [if_pos h0] at hj
    have hji : j ≠ index := fun h => hj (h ▸ svsUntouched_mem_of_ne s index hs h0)
    rw [addD_values_ne s index value j hji]
    exact hs j hj
  · rw [if_neg h0] at hj
    have hji : j ≠ index := by
      intro h
      subst h
      exact hj (List.mem_append_right _ (List.mem_singleton_self j))
    rw [addD_values_ne s index value j hji]
    exact hs j fun hm => hj (List.mem_append_left _ hm)

theorem svsUntouched_addC (s : SparseVectorSum) (index : ℕ) (value : CompensatedDouble)
    (hs : SvsUntouched s) : SvsUntouched (s.addC index value) := by
  intro j hj
  rw [addC_non_zero_indices] at hj
  by_cases h0 : (s.values.getD index CompensatedDouble.zero).toDouble ≠ 0
  · rw [if_pos h0] at hj
    have hji : j ≠ index := fun h => hj (h ▸ svsUntouched_mem_of_ne s index hs h0)
    rw [addC_values_ne s index value j hji]
    exact hs j hj
  · rw [if_neg h0] at hj
    have hji : j ≠ index := by
      intro h
      subst h
      exact hj (List.mem_append_right _ (List.mem_singleton_self j))
    rw [addC_values_ne s index value j hji]
    exact hs j fun hm => hj (List.mem_append_left _ hm)

theorem svsUntouched_applyAdds (ops : List AddOp) :
    ∀ s : SparseVectorSum, SvsUntouched s → SvsUntouched (applyAdds s ops) := by
  induction ops with
  | nil => intro s hs; exact hs
  | cons op rest ih =>
    intro s hs
    cases op with
    | d i v => exact ih (s.addD i v) (svsUntouched_addD s i v hs)
    | c i v => exact ih (s.addC i v) (svsUntouched_addC s i v hs)

theorem saxpyLoop_cc_le (m : ℚ) (av : List ℚ) (rows : List ℕ) :
    ∀ (cc : ℕ) (nzi : List ℕ) (dense : List ℚ),
      cc ≤ (Vector.saxpyLoop m av rows cc nzi dense).1 := by
  induction rows with
  | nil => intro cc nzi dense; exact Nat.le_refl cc
  | cons r rest ih =>
    intro cc nzi dense
    simp only [Vector.saxpyLoop]
    by_cases h : dense.getD r 0 = 0
    · simp only [if_pos h]
      exact Nat.le_trans (Nat.le_succ cc) (ih (cc + 1) _ _)
    · simp only [if_neg h]
      exact ih cc _ _

theorem saxpyLoop_nzi_length (m : ℚ) (av : List ℚ) (rows : List ℕ) :
    ∀ (cc : ℕ) (nzi : List ℕ) (dense : List ℚ),
      (Vector.saxpyLoop m av rows cc nzi dense).2.1.length = nzi.length := by
  induction rows with
  | nil => intro cc nzi dense; rfl
  | cons r rest ih =>
    intro cc nzi dense
    simp only [Vector.saxpyLoop]
    by_cases h : dense.getD r 0 = 0
    · simp only [if_pos h]
      rw [ih (cc + 1) _ _, List.length_set]
    · simp only [if_neg h]
      exact ih cc _ _

theorem saxpyLoop_dense_length (m : ℚ) (av : List ℚ) (rows : List ℕ) :
    ∀ (cc : ℕ) (nzi : List ℕ) (dense : List ℚ),
      (Vector.saxpyLoop m av rows cc nzi dense).2.2.length = dense.length := by
  induction rows with
  | nil => intro cc nzi dense; rfl
  | cons r rest ih =>
    intro cc nzi dense
    simp only [Vector.saxpyLoop]
    by_cases h : dense.getD r 0 = 0
    · simp only [if_pos h]
      rw [ih (cc + 1) _ _, List.length_set]
    · simp only [if_neg h]
      rw [ih cc _ _, List.length_set]

theorem saxpyLoop_dense_not_mem (m : ℚ) (av : List ℚ) (i : ℕ) (rows : List ℕ) :
    ∀ (cc : ℕ) (nzi : List ℕ) (dense : List ℚ), i ∉ rows →
      (Vector.saxpyLoop m av rows cc nzi dense).2.2.getD i 0 = dense.getD i 0 := by
  induction rows with
  | nil => intro cc nzi dense _; rfl
  | cons r rest ih =>
    intro cc nzi dense hi
    have hri : r ≠ i := fun h => hi (h ▸ List.mem_cons_self r rest)
    have hirest : i ∉ rest := fun h => hi (List.mem_cons_of_mem r h)
    simp only [Vector.saxpyLoop]
    by_cases h : dense.getD r 0 = 0
    · simp only [if_pos h]
      rw [ih (cc + 1) _ _ hirest, getD_set_ne 0 dense _ hri]
    · simp only [if_neg h]
      rw [ih cc _ _ hirest, getD_set_ne 0 dense _ hri]

theorem saxpyLoop_dense_tiny (m : ℚ) (av : List ℚ) (i : ℕ) (rows : List ℕ) :
    ∀ (cc : ℕ) (nzi : List ℕ) (dense : List ℚ),
      rows.Nodup → i ∈ rows →
      |dense.getD i 0 + m * av.getD i 0| < kTiny →
      (Vector.saxpyLoop m av rows cc nzi dense).2.2.getD i 0 = 0 := by
  induction rows with
  | nil => intro cc nzi dense _ hi _; exact absurd hi (by simp)
  | cons r rest ih =>
    intro cc nzi dense hnd hi htiny
    by_cases hri : r = i
    · subst hri
      have hno : r ∉ rest := (List.nodup_cons.mp hnd).1
      simp only [Vector.saxpyLoop]
      have hstored : (if |dense.getD r 0 + m * av.getD r 0| < kTiny then kZero
          else dense.getD r 0 + m * av.getD r 0) = 0 := by
        rw [if_pos htiny]; rfl
      by_cases h : dense.getD r 0 = 0
      · simp only [if_pos h]
        rw [saxpyLoop_dense_not_mem m av r rest (cc + 1) _ _ hno, hstored]
        exact getD_set_default 0 dense
      · simp only [if_neg h]
        rw [saxpyLoop_dense_not_mem m av r rest cc _ _ hno, hstored]
        exact getD_set_default 0 dense
    · have hirest : i ∈ rest := by
        rcases List.mem_cons.mp hi with h1 | h2
        · exact absurd h1.symm hri
        · exact h2
      have hnd2 : rest.Nodup := (List.nodup_cons.mp hnd).2
      simp only [Vector.saxpyLoop]
      have hkeep : ∀ st : ℚ, (dense.set r st).getD i 0 + m * av.getD i 0
          = dense.getD i 0 + m * av.getD i 0 := by
        intro st; rw [getD_set_ne 0 dense st hri]
      by_cases h : dense.getD r 0 = 0
      · simp only [if_pos h]
        exact ih (cc + 1) _ _ hnd2 hirest (by rw [hkeep]; exact htiny)
      · simp only [if_neg h]
        exact ih cc _ _ hnd2 hirest (by rw [hkeep]; exact htiny)

theorem saxpyLoop_preserve (m : ℚ) (av : List ℚ) (rows : List ℕ) :
    ∀ (cc : ℕ) (nzi : List ℕ) (dense : List ℚ),
      (∀ j, j ∉ nzi.take cc → dense.getD j 0 = 0) →
      (Vector.saxpyLoop m av rows cc nzi dense).1 ≤ nzi.length →
      ∀ j, j ∉ (Vector.saxpyLoop m av rows cc nzi dense).2.1.take
          (Vector.saxpyLoop m av rows cc nzi dense).1 →
        (Vector.saxpyLoop m av rows cc nzi dense).2.2.getD j 0 = 0 := by
  induction rows with
  | nil => intro cc nzi dense hinv _ j hj; exact hinv j hj
  | cons r rest ih =>
    intro cc nzi dense hinv hfin
    simp only [Vector.saxpyLoop] at hfin ⊢
    by_cases h : dense.getD r 0 = 0
    · simp only [if_pos h] at hfin ⊢
      have hcc1 : cc + 1 ≤ (Vector.saxpyLoop m av rest (cc + 1) (nzi.set cc r)
          (dense.set r (if |dense.getD r 0 + m * av.getD r 0| < kTiny then kZero
            else dense.getD r 0 + m * av.getD r 0))).1 :=
        saxpyLoop_cc_le m av rest (cc + 1) _ _
      have hlen : cc < nzi.length := Nat.lt_of_lt_of_le (Nat.lt_of_lt_of_le (Nat.lt_succ_self cc) hcc1) hfin
      refine ih (cc + 1) (nzi.set cc r) _ ?_ ?_
      · intro j hj
        rw [take_set_succ nzi r hlen] at hj
        have hjcc : j ∉ nzi.take cc := fun hm => hj (List.mem_append_left _ hm)
        have hjr : r ≠ j := by
          intro hrj
          exact hj (List.mem_append_right _ (hrj ▸ List.mem_singleton_self r))
        rw [getD_set_ne 0 dense _ hjr]
        exact hinv j hjcc
      · rw [List.length_set]
        exact hfin
    · simp only [if_neg h] at hfin ⊢
      have hrcc : r ∈ nzi.take cc := by
        by_contra hc
        exact h (hinv r hc)
      refine ih cc nzi _ ?_ hfin
      intro j hj
      have hjr : r ≠ j := fun hrj => hj (hrj ▸ hrcc)
      rw [getD_set_ne 0 dense _ hjr]
      exact hinv j hj

theorem saxpyLoop_live_char (m : ℚ) (av : List ℚ) (rows : List ℕ) :
    ∀ (cc : ℕ) (nzi : List ℕ) (dense : List ℚ),
      rows.Nodup → cc + rows.length ≤ nzi.length →
      (Vector.saxpyLoop m av rows cc nzi dense).1
          = cc + (rows.filter fun r => decide (dense.getD r 0 = 0)).length ∧
      (Vector.saxpyLoop m av rows cc nzi dense).2.1.take
          (Vector.saxpyLoop m av rows cc nzi dense).1
          = nzi.take cc ++ (rows.filter fun r => decide (dense.getD r 0 = 0)) := by
  induction rows with
  | nil =>
    intro cc nzi dense _ _
    exact ⟨rfl, by simp [Vector.saxpyLoop]⟩
  | cons r rest ih =>
    intro cc nzi dense hnd hlen
    have hrrest : r ∉ rest := (List.nodup_cons.mp hnd).1
    have hndr : rest.Nodup := (List.nodup_cons.mp hnd).2
    have hcclt : cc < nzi.length := by
      have : cc + 1 ≤ cc + (r :: rest).length := by
        simp only [List.length_cons]
        omega
      omega
    simp only [Vector.saxpyLoop]
    by_cases h : dense.getD r 0 = 0
    · simp only [if_pos h]
      have hfc : ∀ x ∈ rest,
          decide ((dense.set r (if |dense.getD r 0 + m * av.getD r 0| < kTiny then kZero
            else dense.getD r 0 + m * av.getD r 0)).getD x 0 = 0)
          = decide (dense.getD x 0 = 0) := by
        intro x hx
        have hrx : r ≠ x := fun hrx => hrrest (hrx ▸ hx)
        rw [getD_set_ne 0 dense _ hrx]
      have hlen2 : (cc + 1) + rest.length ≤ (nzi.set cc r).length := by
        rw [List.length_set]
        simp only [List.length_cons] at hlen
        omega
      obtain ⟨h1, h2⟩ := ih (cc + 1) (nzi.set cc r) _ hndr hlen2
      rw [List.filter_congr hfc] at h1 h2
      constructor
      · rw [h1]
        simp only [List.filter_cons, decide_eq_true_eq, if_pos h, List.length_cons]
        omega
      · rw [h2, take_set_succ nzi r hcclt]
        simp only [List.filter_cons, decide_eq_true_eq, if_pos h]
        rw [List.append_assoc]
        rfl
    · simp only [if_neg h]
      have hfc : ∀ x ∈ rest,
          decide ((dense.set r (if |dense.getD r 0 + m * av.getD r 0| < kTiny then kZero
            else dense.getD r 0 + m * av.getD r 0)).getD x 0 = 0)
          = decide (dense.getD x 0 = 0) := by
        intro x hx
        have hrx : r ≠ x := fun hrx => hrrest (hrx ▸ hx)
        rw [getD_set_ne 0 dense _ hrx]
      have hlen2 : cc + rest.length ≤ nzi.length := by
        simp only [List.length_cons] at hlen
        omega
      obtain ⟨h1, h2⟩ := ih cc nzi _ hndr hlen2
      rw [List.filter_congr hfc] at h1 h2
      constructor
      · rw [h1]
        simp only [List.filter_cons, decide_eq_true_eq, if_neg h]
      · rw [h2]
        simp only [List.filter_cons, decide_eq_true_eq, if_neg h]

theorem vecUntouched_setup (d : ℕ) : VecUntouched (Vector.setup d) := by
  intro j _
  exact getD_replicate (0 : ℚ) d j

theorem saxpy_count_eq (v : Vector) (m : ℚ) (x : Vector) :
    (v.saxpy m x).non_zero_count
      = ((Vector.saxpyLoop m x.dense_values
          (x.non_zero_indices.take x.non_zero_count.toNat)
          v.non_zero_count.toNat v.non_zero_indices v.dense_values).1 : ℤ) := rfl

theorem saxpy_count_nonneg (v : Vector) (m : ℚ) (x : Vector) :
    0 ≤ (v.saxpy m x).non_zero_count := by
  rw [saxpy_count_eq]
  exact Int.ofNat_nonneg _

theorem saxpy_count_le (v : Vector) (m : ℚ) (x : Vector) (h : 0 ≤ v.non_zero_count) :
    v.non_zero_count ≤ (v.saxpy m x).non_zero_count := by
  rw [saxpy_count_eq]
  have := saxpyLoop_cc_le m x.dense_values
    (x.non_zero_indices.take x.non_zero_count.toNat)
    v.non_zero_count.toNat v.non_zero_indices v.dense_values
  omega

theorem saxpy_nzi_length (v : Vector) (m : ℚ) (x : Vector) :
    (v.saxpy m x).non_zero_indices.length = v.non_zero_indices.length :=
  saxpyLoop_nzi_length m x.dense_values _ _ _ _

theorem applySaxpys_count_le (ops : List (ℚ × Vector)) :
    ∀ v : Vector, 0 ≤ v.non_zero_count →
      0 ≤ (applySaxpys v ops).non_zero_count ∧
      v.non_zero_count ≤ (applySaxpys v ops).non_zero_count ∧
      (applySaxpys v ops).non_zero_indices.length = v.non_zero_indices.length := by
  induction ops with
  | nil => intro v hv; exact ⟨hv, Int.le_refl _, rfl⟩
  | cons p rest ih =>
    intro v hv
    have h1 := saxpy_count_nonneg v p.1 p.2
    obtain ⟨a, b, c⟩ := ih (v.saxpy p.1 p.2) h1
    have hfold : applySaxpys v (p :: rest) = applySaxpys (v.saxpy p.1 p.2) rest := rfl
    rw [hfold]
    refine ⟨a, ?_, ?_⟩
    · exact Int.le_trans (saxpy_count_le v p.1 p.2 hv) b
    · rw [c, saxpy_nzi_length]

theorem vecUntouched_saxpy (v : Vector) (m : ℚ) (x : Vector)
    (hv : VecUntouched v)
    (hfin : (v.saxpy m x).non_zero_count.toNat ≤ v.non_zero_indices.length) :
    VecUntouched (v.saxpy m x) := by
  intro j hj
  have key := saxpyLoop_preserve m x.dense_values
    (x.non_zero_indices.take x.non_zero_count.toNat)
    v.non_zero_count.toNat v.non_zero_indices v.dense_values hv (by
      have : (v.saxpy m x).non_zero_count.toNat
          = (Vector.saxpyLoop m x.dense_values
              (x.non_zero_indices.take x.non_zero_count.toNat)
              v.non_zero_count.toNat v.non_zero_indices v.dense_values).1 := by
        rw [saxpy_count_eq]
        exact Int.toNat_ofNat _
      rw [this] at hfin
      exact hfin)
  refine key j ?_
  have hlift : (v.saxpy m x).liveList
      = (Vector.saxpyLoop m x.dense_values
          (x.non_zero_indices.take x.non_zero_count.toNat)
          v.non_zero_count.toNat v.non_zero_indices v.dense_values).2.1.take
        (Vector.saxpyLoop m x.dense_values
          (x.non_zero_indices.take x.non_zero_count.toNat)
          v.non_zero_count.toNat v.non_zero_indices v.dense_values).1 := by
    simp only [Vector.liveList, Vector.saxpy, Int.toNat_ofNat]
  rw [hlift] at hj
  exact hj

theorem vecUntouched_applySaxpys (ops : List (ℚ × Vector)) :
    ∀ v : Vector, VecUntouched v → 0 ≤ v.non_zero_count →
      (applySaxpys v ops).non_zero_count.toNat ≤ v.non_zero_indices.length →
      VecUntouched (applySaxpys v ops) := by
  induction ops with
  | nil => intro v hv _ _; exact hv
  | cons p rest ih =>
    intro v hv hv0 hfin
    have h1 : 0 ≤ (v.saxpy p.1 p.2).non_zero_count := saxpy_count_nonneg v p.1 p.2
    obtain ⟨hf0, hfle, _⟩ := applySaxpys_count_le rest (v.saxpy p.1 p.2) h1
    have hstep : (v.saxpy p.1 p.2).non_zero_count.toNat ≤ v.non_zero_indices.length := by
      have hfold : applySaxpys v (p :: rest) = applySaxpys (v.saxpy p.1 p.2) rest := rfl
      rw [hfold] at hfin
      omega
    have hv1 : VecUntouched (v.saxpy p.1 p.2) := vecUntouched_saxpy v p.1 p.2 hv hstep
    have hfold : applySaxpys v (p :: rest) = applySaxpys (v.saxpy p.1 p.2) rest := rfl
    rw [hfold] at hfin ⊢
    refine ih (v.saxpy p.1 p.2) hv1 h1 ?_
    rw [saxpy_nzi_length]
    exact hfin

theorem kTiny_pos : 0 < kTiny := by
  rw [kTiny]
  positivity

theorem pruneRef_fst (rows : List ℕ) :
    ∀ dense : List ℚ,
      (pruneRef rows dense).1 = rows.filter fun r => decide (kTiny ≤ |dense.getD r 0|) := by
  induction rows with
  | nil => intro dense; rfl
  | cons r rest ih =>
    intro dense
    simp only [pruneRef]
    by_cases h : kTiny ≤ |dense.getD r 0|
    · rw [if_pos h]
      have hf : List.filter (fun x => decide (kTiny ≤ |dense.getD x 0|)) (r :: rest)
          = r :: List.filter (fun x => decide (kTiny ≤ |dense.getD x 0|)) rest := by
        rw [List.filter_cons_of_pos]
        exact decide_eq_true h
      rw [hf, ih dense]
    · rw [if_neg h]
      have hf : List.filter (fun x => decide (kTiny ≤ |dense.getD x 0|)) (r :: rest)
          = List.filter (fun x => decide (kTiny ≤ |dense.getD x 0|)) rest := by
        rw [List.filter_cons_of_neg]
        exact fun hc => h (of_decide_eq_true hc)
      rw [hf, ih (dense.set r 0)]
      refine List.filter_congr ?_
      intro x hx
      by_cases hxr : r = x
      · subst hxr
        rw [getD_set_default 0 dense]
        have h1 : decide (kTiny ≤ |(0:ℚ)|) = false := by
          simp only [abs_zero]
          exact decide_eq_false (not_le.mpr kTiny_pos)
        have h2 : decide (kTiny ≤ |dense.getD r 0|) = false := decide_eq_false h
        rw [h1, h2]
      · rw [getD_set_ne 0 dense 0 hxr]

theorem pruneRef_snd (rows : List ℕ) :
    ∀ (dense : List ℚ) (j : ℕ),
      (pruneRef rows dense).2.getD j 0 =
        if j ∈ rows ∧ ¬ kTiny ≤ |dense.getD j 0| then 0 else dense.getD j 0 := by
  induction rows with
  | nil =>
    intro dense j
    simp [pruneRef]
  | cons r rest ih =>
    intro dense j
    simp only [pruneRef]
    by_cases h : kTiny ≤ |dense.getD r 0|
    · rw [if_pos h, ih dense j]
      by_cases hjr : j = r
      · subst hjr
        rw [if_neg (fun hc => hc.2 h), if_neg (fun hc => hc.2 h)]
      · have hmem : (j ∈ r :: rest) ↔ j ∈ rest := by
          constructor
          · intro hc
            rcases List.mem_cons.mp hc with hc1 | hc2
            · exact absurd hc1 hjr
            · exact hc2
          · intro hc; exact List.mem_cons_of_mem r hc
        by_cases hjrest : j ∈ rest ∧ ¬ kTiny ≤ |dense.getD j 0|
        · rw [if_pos hjrest, if_pos ⟨hmem.mpr hjrest.1, hjrest.2⟩]
        · rw [if_neg hjrest, if_neg (fun hc => hjrest ⟨hmem.mp hc.1, hc.2⟩)]
    · rw [if_neg h, ih (dense.set r 0) j]
      by_cases hjr : j = r
      · subst hjr
        rw [getD_set_default 0 dense]
        have hl : (if j ∈ rest ∧ ¬ kTiny ≤ |(0:ℚ)| then (0:ℚ) else 0) = 0 := ite_self 0
        rw [hl, if_pos ⟨List.mem_cons_self j rest, h⟩]
      · rw [getD_set_ne 0 dense 0 (fun hc => hjr hc.symm)]
        have hmem : (j ∈ r :: rest) ↔ j ∈ rest := by
          constructor
          · intro hc
            rcases List.mem_cons.mp hc with hc1 | hc2
            · exact absurd hc1 hjr
            · exact hc2
          · intro hc; exact List.mem_cons_of_mem r hc
        by_cases hjrest : j ∈ rest ∧ ¬ kTiny ≤ |dense.getD j 0|
        · rw [if_pos hjrest, if_pos ⟨hmem.mpr hjrest.1, hjrest.2⟩]
        · rw [if_neg hjrest, if_neg (fun hc => hjrest ⟨hmem.mp hc.1, hc.2⟩)]

theorem pruneLoop_bridge (rows : List ℕ) :
    ∀ (i cc : ℕ) (nzi : List ℕ) (dense : List ℚ),
      cc ≤ i → i + rows.length ≤ nzi.length →
      (∀ j, j < rows.length → nzi.getD (i + j) 0 = rows.getD j 0) →
      (Vector.pruneLoop rows.length i cc nzi dense).1 = cc + (pruneRef rows dense).1.length ∧
      (Vector.pruneLoop rows.length i cc nzi dense).2.1.take
          (Vector.pruneLoop rows.length i cc nzi dense).1
        = nzi.take cc ++ (pruneRef rows dense).1 ∧
      (Vector.pruneLoop rows.length i cc nzi dense).2.2 = (pruneRef rows dense).2 ∧
      (Vector.pruneLoop rows.length i cc nzi dense).2.1.length = nzi.length := by
  induction rows with
  | nil =>
    intro i cc nzi dense _ _ _
    refine ⟨rfl, ?_, rfl, rfl⟩
    simp [Vector.pruneLoop, pruneRef]
  | cons r rest ih =>
    intro i cc nzi dense hcci hbound hpos
    have hidx : nzi.getD i 0 = r := by
      have := hpos 0 (by simp)
      simpa using this
    have hilen : i < nzi.length := by
      simp only [List.length_cons] at hbound
      omega
    have hcclen : cc < nzi.length := Nat.lt_of_le_of_lt hcci hilen
    simp only [List.length_cons, Vector.pruneLoop, hidx]
    by_cases h : kTiny ≤ |dense.getD r 0|
    · simp only [if_pos h]
      have hb2 : (i + 1) + rest.length ≤ (nzi.set cc r).length := by
        rw [List.length_set]
        simp only [List.length_cons] at hbound
        omega
      have hp2 : ∀ j, j < rest.length → (nzi.set cc r).getD ((i + 1) + j) 0 = rest.getD j 0 := by
        intro j hj
        have hne : cc ≠ (i + 1) + j := by omega
        rw [getD_set_ne 0 nzi r hne]
        have := hpos (j + 1) (by simp only [List.length_cons]; omega)
        have harith : i + (j + 1) = (i + 1) + j := by omega
        rw [harith] at this
        simpa using this
      obtain ⟨h1, h2, h3, h4⟩ := ih (i + 1) (cc + 1) (nzi.set cc r) dense (by omega) hb2 hp2
      have hrefv : pruneRef (r :: rest) dense = (r :: (pruneRef rest dense).1, (pruneRef rest dense).2) := by
        simp only [pruneRef, if_pos h]
      refine ⟨?_, ?_, ?_, ?_⟩
      · rw [h1, hrefv]
        simp only [List.length_cons]
        omega
      · rw [h2, hrefv, take_set_succ nzi r hcclen]
        simp only [List.append_assoc, List.singleton_append]
      · rw [h3, hrefv]
      · rw [h4, List.length_set]
    · simp only [if_neg h]
      have hb2 : (i + 1) + rest.length ≤ nzi.length := by
        simp only [List.length_cons] at hbound
        omega
      have hp2 : ∀ j, j < rest.length → nzi.getD ((i + 1) + j) 0 = rest.getD j 0 := by
        intro j hj
        have := hpos (j + 1) (by simp only [List.length_cons]; omega)
        have harith : i + (j + 1) = (i + 1) + j := by omega
        rw [harith] at this
        simpa using this
      obtain ⟨h1, h2, h3, h4⟩ := ih (i + 1) cc nzi (dense.set r 0) (by omega) hb2 hp2
      have hrefv : pruneRef (r :: rest) dense = pruneRef rest (dense.set r 0) := by
        simp only [pruneRef, if_neg h]
      exact ⟨by rw [h1, hrefv], by rw [h2, hrefv], by rw [h3, hrefv], h4⟩

theorem saxpy_liveList (v : Vector) (m : ℚ) (x : Vector) :
    (v.saxpy m x).liveList
      = (Vector.saxpyLoop m x.dense_values
          (x.non_zero_indices.take x.non_zero_count.toNat)
          v.non_zero_count.toNat v.non_zero_indices v.dense_values).2.1.take
        (Vector.saxpyLoop m x.dense_values
          (x.non_zero_indices.take x.non_zero_count.toNat)
          v.non_zero_count.toNat v.non_zero_indices v.dense_values).1 := by
  simp only [Vector.liveList, Vector.saxpy, Int.toNat_ofNat]

theorem saxpy_dense (v : Vector) (m : ℚ) (x : Vector) :
    (v.saxpy m x).dense_values
      = (Vector.saxpyLoop m x.dense_values
          (x.non_zero_indices.take x.non_zero_count.toNat)
          v.non_zero_count.toNat v.non_zero_indices v.dense_values).2.2 := rfl

theorem ofDouble_toDouble (q : ℚ) : (CompensatedDouble.ofDouble q).toDouble = q := by
  simp [CompensatedDouble.ofDouble, CompensatedDouble.toDouble]

theorem addD_sentinel (s : SparseVectorSum) (idx : ℕ) (v : ℚ)
    (hs : SvsUntouched s) (hlen : idx < s.values.length)
    (hzero : (if (s.values.getD idx CompensatedDouble.zero).toDouble ≠ 0
        then (s.values.getD idx CompensatedDouble.zero).addDoubleAssign v
        else CompensatedDouble.ofDouble v).toDouble = 0) :
    (s.addD idx v).values.getD idx CompensatedDouble.zero = CompensatedDouble.ofDouble dblMin ∧
    idx ∈ (s.addD idx v).non_zero_indices := by
  by_cases h0 : (s.values.getD idx CompensatedDouble.zero).toDouble ≠ 0
  · rw [if_pos h0] at hzero
    have hstage : (s.values.set idx ((s.values.getD idx CompensatedDouble.zero).addDoubleAssign v)).getD
        idx CompensatedDouble.zero = (s.values.getD idx CompensatedDouble.zero).addDoubleAssign v :=
      getD_set_self CompensatedDouble.zero s.values _ hlen
    constructor
    · simp only [SparseVectorSum.addD, if_pos h0, hstage, if_pos hzero]
      exact getD_set_self CompensatedDouble.zero _ _ (by rw [List.length_set]; exact hlen)
    · rw [addD_non_zero_indices, if_pos h0]
      exact svsUntouched_mem_of_ne s idx hs h0
  · rw [if_neg h0] at hzero
    have hstage : (s.values.set idx (CompensatedDouble.ofDouble v)).getD
        idx CompensatedDouble.zero = CompensatedDouble.ofDouble v :=
      getD_set_self CompensatedDouble.zero s.values _ hlen
    constructor
    · simp only [SparseVectorSum.addD, if_neg h0, hstage, if_pos hzero]
      exact getD_set_self CompensatedDouble.zero _ _ (by rw [List.length_set]; exact hlen)
    · rw [addD_non_zero_indices, if_neg h0]
      exact List.mem_append_right _ (List.mem_singleton_self idx)

theorem addC_sentinel (s : SparseVectorSum) (idx : ℕ) (v : CompensatedDouble)
    (hs : SvsUntouched s) (hlen : idx < s.values.length)
    (hzero : (if (s.values.getD idx CompensatedDouble.zero).toDouble ≠ 0
        then (s.values.getD idx CompensatedDouble.zero).addCompAssign v
        else v).toDouble = 0) :
    (s.addC idx v).values.getD idx CompensatedDouble.zero = CompensatedDouble.ofDouble dblMin ∧
    idx ∈ (s.addC idx v).non_zero_indices := by
  by_cases h0 : (s.values.getD idx CompensatedDouble.zero).toDouble ≠ 0
  · rw [if_pos h0] at hzero
    have hstage : (s.values.set idx ((s.values.getD idx CompensatedDouble.zero).addCompAssign v)).getD
        idx CompensatedDouble.zero = (s.values.getD idx CompensatedDouble.zero).addCompAssign v :=
      getD_set_self CompensatedDouble.zero s.values _ hlen
    constructor
    · simp only [SparseVectorSum.addC, if_pos h0, hstage, if_pos hzero]
      exact getD_set_self CompensatedDouble.zero _ _ (by rw [List.length_set]; exact hlen)
    · rw [addC_non_zero_indices, if_pos h0]
      exact svsUntouched_mem_of_ne s idx hs h0
  · rw [if_neg h0] at hzero
    have hstage : (s.values.set idx v).getD idx CompensatedDouble.zero = v :=
      getD_set_self CompensatedDouble.zero s.values _ hlen
    constructor
    · simp only [SparseVectorSum.addC, if_neg h0, hstage, if_pos hzero]
      exact getD_set_self CompensatedDouble.zero _ _ (by rw [List.length_set]; exact hlen)
    · rw [addC_non_zero_indices, if_neg h0]
      exact List.mem_append_right _ (List.mem_singleton_self idx)

/-- Claim C2: in `SparseVectorSum::add` (both overloads, on states reached
by `add` calls with in-range indices), whenever the updated value at
`index` compares equal to `0.0` under the collapsed comparison, it is
overwritten with `std::numeric_limits<double>::min()` and the index stays
in the non-zero index list; concretely, on a fresh 100-dimension
accumulator, `add(42, 5.0)` then `add(42, -5.0)` leaves the live set
`[42]` and `get_value(42) = dblMin`. -/
theorem c2_add_sentinel :
    (∀ (d : ℕ) (ops : List AddOp) (idx : ℕ) (v : ℚ),
      idx < (applyAdds (SparseVectorSum.ofDimension d) ops).values.length →
      (if ((applyAdds (SparseVectorSum.ofDimension d) ops).values.getD idx
            CompensatedDouble.zero).toDouble ≠ 0
        then ((applyAdds (SparseVectorSum.ofDimension d) ops).values.getD idx
            CompensatedDouble.zero).addDoubleAssign v
        else CompensatedDouble.ofDouble v).toDouble = 0 →
      ((applyAdds (SparseVectorSum.ofDimension d) ops).addD idx v).values.getD idx
          CompensatedDouble.zero = CompensatedDouble.ofDouble dblMin ∧
      idx ∈ ((applyAdds (SparseVectorSum.ofDimension d) ops).addD idx v).non_zero_indices) ∧
    (∀ (d : ℕ) (ops : List AddOp) (idx : ℕ) (v : CompensatedDouble),
      idx < (applyAdds (SparseVectorSum.ofDimension d) ops).values.length →
      (if ((applyAdds (SparseVectorSum.ofDimension d) ops).values.getD idx
            CompensatedDouble.zero).toDouble ≠ 0
        then ((applyAdds (SparseVectorSum.ofDimension d) ops).values.getD idx
            CompensatedDouble.zero).addCompAssign v
        else v).toDouble = 0 →
      ((applyAdds (SparseVectorSum.ofDimension d) ops).addC idx v).values.getD idx
          CompensatedDouble.zero = CompensatedDouble.ofDouble dblMin ∧
      idx ∈ ((applyAdds (SparseVectorSum.ofDimension d) ops).addC idx v).non_zero_indices) ∧
    ((((SparseVectorSum.ofDimension 100).addD 42 5).addD 42 (-5)).non_zero_indices = [42] ∧
      (((SparseVectorSum.ofDimension 100).addD 42 5).addD 42 (-5)).get_value 42 = dblMin) := by
  refine ⟨?_, ?_, by decide, by decide⟩
  · intro d ops idx v hlen hzero
    exact addD_sentinel (applyAdds (SparseVectorSum.ofDimension d) ops) idx v
      (svsUntouched_applyAdds ops _ (svsUntouched_ofDimension d)) hlen hzero
  · intro d ops idx v hlen hzero
    exact addC_sentinel (applyAdds (SparseVectorSum.ofDimension d) ops) idx v
      (svsUntouched_applyAdds ops _ (svsUntouched_ofDimension d)) hlen hzero

/-- Witness for C2: on the empty history, index `0` of a 1-dimension
accumulator holds collapsed zero, and `add(0, 0.0)` installs the sentinel
and records the index. -/
theorem c2_add_sentinel_witness :
    (0 < (applyAdds (SparseVectorSum.ofDimension 1) []).values.length) ∧
    ((applyAdds (SparseVectorSum.ofDimension 1) []).addD 0 0).values.getD 0
        CompensatedDouble.zero = CompensatedDouble.ofDouble dblMin ∧
    0 ∈ ((applyAdds (SparseVectorSum.ofDimension 1) []).addD 0 0).non_zero_indices :=
  ⟨by decide, (c2_add_sentinel.1 1 [] 0 0 (by decide) (by decide)).1,
    (c2_add_sentinel.1 1 [] 0 0 (by decide) (by decide)).2⟩

/-- Claim C10: `add(index, 0.0)` on an index whose stored value compares
equal to `0.0` (a never-touched index included) appends the index to the
non-zero list and leaves the positive sentinel
`std::numeric_limits<double>::min()` stored there, so adding an exact zero
marks the index live rather than being a no-op. -/
theorem c10_add_zero_marks_live :
    ∀ (s : SparseVectorSum) (idx : ℕ), idx < s.values.length →
      (s.values.getD idx CompensatedDouble.zero).toDouble = 0 →
      (s.addD idx 0).non_zero_indices = s.non_zero_indices ++ [idx] ∧
      (s.addD idx 0).values.getD idx CompensatedDouble.zero
        = CompensatedDouble.ofDouble dblMin := by
  intro s idx hlen hzero
  have h0 : ¬ (s.values.getD idx CompensatedDouble.zero).toDouble ≠ 0 := not_not_intro hzero
  constructor
  · rw [addD_non_zero_indices, if_neg h0]
  · have hstage : (s.values.set idx (CompensatedDouble.ofDouble 0)).getD
        idx CompensatedDouble.zero = CompensatedDouble.ofDouble 0 :=
      getD_set_self CompensatedDouble.zero s.values _ hlen
    have hz : (CompensatedDouble.ofDouble (0:ℚ)).toDouble = 0 := ofDouble_toDouble 0
    simp only [SparseVectorSum.addD, if_neg h0, hstage, if_pos hz]
    exact getD_set_self CompensatedDouble.zero _ _ (by rw [List.length_set]; exact hlen)

/-- Witness for C10: a fresh 3-dimension accumulator, `add(1, 0.0)`. -/
theorem c10_add_zero_marks_live_witness :
    (1 < (SparseVectorSum.ofDimension 3).values.length) ∧
    ((SparseVectorSum.ofDimension 3).addD 1 0).non_zero_indices = [] ++ [1] ∧
    ((SparseVectorSum.ofDimension 3).addD 1 0).values.getD 1 CompensatedDouble.zero
      = CompensatedDouble.ofDouble dblMin :=
  ⟨by decide, (c10_add_zero_marks_live (SparseVectorSum.ofDimension 3) 1 (by decide) (by decide)).1,
    (c10_add_zero_marks_live (SparseVectorSum.ofDimension 3) 1 (by decide) (by decide)).2⟩

/-- Claim C3: in `Vector::saxpy`, for a live index `i` of the source `x`
(live list duplicate-free), if the computed result
`self[i] + multiplier * x[i]` has magnitude below `kTiny`, the value stored
at `i` afterwards is exact zero. -/
theorem c3_saxpy_flush_exact_zero :
    ∀ (v x : Vector) (m : ℚ) (i : ℕ),
      (Vector.liveList x).Nodup → i ∈ Vector.liveList x →
      |v.dense_values.getD i 0 + m * x.dense_values.getD i 0| < kTiny →
      (v.saxpy m x).dense_values.getD i 0 = 0 := by
  intro v x m i hnd hmem htiny
  rw [saxpy_dense]
  exact saxpyLoop_dense_tiny m x.dense_values i
    (x.non_zero_indices.take x.non_zero_count.toNat)
    v.non_zero_count.toNat v.non_zero_indices v.dense_values hnd hmem htiny

/-- Witness for C3: `y[0] = 2`, `x[0] = 1`, multiplier `-2`; the result
`2 - 2·1 = 0` is below `kTiny` and the stored value is exact zero. -/
theorem c3_saxpy_flush_exact_zero_witness :
    (Vector.liveList
        { non_zero_indices := [0, 0], dense_values := [1, 0],
          packed_indices := [0, 0], packed_values := [0, 0],
          dimension := 2, non_zero_count := 1, packed_element_count := 0,
          synthetic_clock_tick := 0, should_update_packed_storage := false }).Nodup ∧
    (({ non_zero_indices := [0, 0], dense_values := [2, 0],
        packed_indices := [0, 0], packed_values := [0, 0],
        dimension := 2, non_zero_count := 1, packed_element_count := 0,
        synthetic_clock_tick := 0, should_update_packed_storage := false : Vector }).saxpy (-2)
      { non_zero_indices := [0, 0], dense_values := [1, 0],
        packed_indices := [0, 0], packed_values := [0, 0],
        dimension := 2, non_zero_count := 1, packed_element_count := 0,
        synthetic_clock_tick := 0, should_update_packed_storage := false }).dense_values.getD 0 0
      = 0 :=
  ⟨by decide,
    c3_saxpy_flush_exact_zero
      { non_zero_indices := [0, 0], dense_values := [2, 0],
        packed_indices := [0, 0], packed_values := [0, 0],
        dimension := 2, non_zero_count := 1, packed_element_count := 0,
        synthetic_clock_tick := 0, should_update_packed_storage := false }
      { non_zero_indices := [0, 0], dense_values := [1, 0],
        packed_indices := [0, 0], packed_values := [0, 0],
        dimension := 2, non_zero_count := 1, packed_element_count := 0,
        synthetic_clock_tick := 0, should_update_packed_storage := false }
      (-2) 0 (by decide) (by decide) (by decide)⟩

theorem beq_iff (a b : Vector) :
    Vector.beq a b = true ↔
      (a.dimension = b.dimension ∧ a.non_zero_count = b.non_zero_count ∧
       a.non_zero_indices = b.non_zero_indices ∧ a.dense_values = b.dense_values ∧
       a.synthetic_clock_tick = b.synthetic_clock_tick) := by
  simp only [Vector.beq]
  split_ifs with h1 h2 h3 h4 h5 <;> simp_all

theorem beq_swap (a b : Vector) : Vector.beq a b = Vector.beq b a := by
  by_cases h : Vector.beq a b = true
  · obtain ⟨e1, e2, e3, e4, e5⟩ := (beq_iff a b).mp h
    have h2 : Vector.beq b a = true :=
      (beq_iff b a).mpr ⟨e1.symm, e2.symm, e3.symm, e4.symm, e5.symm⟩
    rw [h, h2]
  · have h2 : ¬ Vector.beq b a = true := by
      intro hc
      obtain ⟨e1, e2, e3, e4, e5⟩ := (beq_iff b a).mp hc
      exact h ((beq_iff a b).mpr ⟨e1.symm, e2.symm, e3.symm, e4.symm, e5.symm⟩)
    simp only [Bool.not_eq_true] at h h2
    rw [h, h2]

/-- Counterexample to claim C4: two vectors agreeing on dimension, live
count, live-index list (both empty, count 0), dense contents and tag — the
exact fields the claim says determine equality — still compare unequal,
because `operator==` compares the whole `non_zero_indices` array including
stale entries beyond the live count. -/
theorem c4_equality_counterexample :
    specClaimEq
      { non_zero_indices := [1, 0], dense_values := [0, 0],
        packed_indices := [0, 0], packed_values := [0, 0],
        dimension := 2, non_zero_count := 0, packed_element_count := 0,
        synthetic_clock_tick := 0, should_update_packed_storage := false }
      { non_zero_indices := [0, 0], dense_values := [0, 0],
        packed_indices := [0, 0], packed_values := [0, 0],
        dimension := 2, non_zero_count := 0, packed_element_count := 0,
        synthetic_clock_tick := 0, should_update_packed_storage := false } ∧
    Vector.beq
      { non_zero_indices := [1, 0], dense_values := [0, 0],
        packed_indices := [0, 0], packed_values := [0, 0],
        dimension := 2, non_zero_count := 0, packed_element_count := 0,
        synthetic_clock_tick := 0, should_update_packed_storage := false }
      { non_zero_indices := [0, 0], dense_values := [0, 0],
        packed_indices := [0, 0], packed_values := [0, 0],
        dimension := 2, non_zero_count := 0, packed_element_count := 0,
        synthetic_clock_tick := 0, should_update_packed_storage := false } = false := by
  constructor
  · refine ⟨rfl, rfl, ?_, rfl, rfl⟩
    decide
  · decide

/-- Claim C4 as amended: `Vector::operator==` is reflexive and symmetric,
and two vectors compare equal iff dimension, live count, the entire
`non_zero_indices` array (stale entries beyond the live count included),
dense contents and the tag all match exactly; the comparison is strict
structural equality. -/
theorem c4_equality_amended :
    (∀ a : Vector, Vector.beq a a = true) ∧
    (∀ a b : Vector, Vector.beq a b = Vector.beq b a) ∧
    (∀ a b : Vector, Vector.beq a b = true ↔
      (a.dimension = b.dimension ∧ a.non_zero_count = b.non_zero_count ∧
       a.non_zero_indices = b.non_zero_indices ∧ a.dense_values = b.dense_values ∧
       a.synthetic_clock_tick = b.synthetic_clock_tick)) := by
  refine ⟨?_, beq_swap, beq_iff⟩
  intro a
  exact (beq_iff a a).mpr ⟨rfl, rfl, rfl, rfl, rfl⟩

/-- Counterexample to claim C6: starting from a fresh 2-dimension vector,
three `saxpy` calls with the same well-formed source (live list `[0]`,
value `1`) at multipliers `1`, `-1`, `1` leave index `0` twice in the live
list: the cancellation in the second call flushes the stored value back to
exact zero while the index stays live, so the third call appends it again. -/
theorem c6_saxpy_counterexample :
    Vector.liveList
      ((((Vector.setup 2).saxpy 1
          { non_zero_indices := [0, 0], dense_values := [1, 0],
            packed_indices := [0, 0], packed_values := [0, 0],
            dimension := 2, non_zero_count := 1, packed_element_count := 0,
            synthetic_clock_tick := 0, should_update_packed_storage := false }).saxpy (-1)
          { non_zero_indices := [0, 0], dense_values := [1, 0],
            packed_indices := [0, 0], packed_values := [0, 0],
            dimension := 2, non_zero_count := 1, packed_element_count := 0,
            synthetic_clock_tick := 0, should_update_packed_storage := false }).saxpy 1
          { non_zero_indices := [0, 0], dense_values := [1, 0],
            packed_indices := [0, 0], packed_values := [0, 0],
            dimension := 2, non_zero_count := 1, packed_element_count := 0,
            synthetic_clock_tick := 0, should_update_packed_storage := false }) = [0, 0] ∧
    ¬ (Vector.liveList
      ((((Vector.setup 2).saxpy 1
          { non_zero_indices := [0, 0], dense_values := [1, 0],
            packed_indices := [0, 0], packed_values := [0, 0],
            dimension := 2, non_zero_count := 1, packed_element_count := 0,
            synthetic_clock_tick := 0, should_update_packed_storage := false }).saxpy (-1)
          { non_zero_indices := [0, 0], dense_values := [1, 0],
            packed_indices := [0, 0], packed_values := [0, 0],
            dimension := 2, non_zero_count := 1, packed_element_count := 0,
            synthetic_clock_tick := 0, should_update_packed_storage := false }).saxpy 1
          { non_zero_indices := [0, 0], dense_values := [1, 0],
            packed_indices := [0, 0], packed_values := [0, 0],
            dimension := 2, non_zero_count := 1, packed_element_count := 0,
            synthetic_clock_tick := 0, should_update_packed_storage := false })).Nodup := by
  constructor
  · decide
  · decide

/-- Claim C6 as amended: within one `saxpy` call whose source live list is
duplicate-free and whose target live list is duplicate-free with every
live entry holding a non-zero value (and room for the fill-ins), the new
live list is the old one followed by each newly-filled index exactly once,
and is duplicate-free.  Across calls the no-duplicate property can fail
only after a cancellation flushes a live entry back to exact zero. -/
theorem c6_saxpy_fill_in_amended :
    ∀ (v x : Vector) (m : ℚ),
      0 ≤ v.non_zero_count →
      (Vector.liveList v).Nodup → (Vector.liveList x).Nodup →
      (∀ i, i ∈ Vector.liveList v → v.dense_values.getD i 0 ≠ 0) →
      v.non_zero_count.toNat + (Vector.liveList x).length ≤ v.non_zero_indices.length →
      Vector.liveList (v.saxpy m x)
          = Vector.liveList v
            ++ ((Vector.liveList x).filter fun r => decide (v.dense_values.getD r 0 = 0)) ∧
      (Vector.liveList (v.saxpy m x)).Nodup := by
  intro v x m _hv0 hndv hndx hlive hroom
  obtain ⟨h1, h2⟩ := saxpyLoop_live_char m x.dense_values
    (x.non_zero_indices.take x.non_zero_count.toNat)
    v.non_zero_count.toNat v.non_zero_indices v.dense_values hndx hroom
  have hmain : Vector.liveList (v.saxpy m x)
      = Vector.liveList v
        ++ ((Vector.liveList x).filter fun r => decide (v.dense_values.getD r 0 = 0)) := by
    rw [saxpy_liveList, h2]
    rfl
  refine ⟨hmain, ?_⟩
  rw [hmain]
  rw [List.nodup_append]
  refine ⟨hndv, (List.filter_sublist _).nodup hndx, ?_⟩
  intro a hav haf
  have := List.of_mem_filter haf
  exact hlive a hav (of_decide_eq_true this)

/-- Witness for the amended C6: target with live list `[1]` and value `5`
there, source with live list `[0]` and value `1`; the fill-in of index `0`
is appended once and the result `[1, 0]` is duplicate-free. -/
theorem c6_saxpy_fill_in_amended_witness :
    ((0:ℤ) ≤ 1) ∧
    Vector.liveList
      (({ non_zero_indices := [1, 0], dense_values := [0, 5],
          packed_indices := [0, 0], packed_values := [0, 0],
          dimension := 2, non_zero_count := 1, packed_element_count := 0,
          synthetic_clock_tick := 0, should_update_packed_storage := false : Vector }).saxpy 1
        { non_zero_indices := [0, 0], dense_values := [1, 0],
          packed_indices := [0, 0], packed_values := [0, 0],
          dimension := 2, non_zero_count := 1, packed_element_count := 0,
          synthetic_clock_tick := 0, should_update_packed_storage := false })
      = Vector.liveList
          { non_zero_indices := [1, 0], dense_values := [0, 5],
            packed_indices := [0, 0], packed_values := [0, 0],
            dimension := 2, non_zero_count := 1, packed_element_count := 0,
            synthetic_clock_tick := 0, should_update_packed_storage := false }
        ++ ((Vector.liveList
          { non_zero_indices := [0, 0], dense_values := [1, 0],
            packed_indices := [0, 0], packed_values := [0, 0],
            dimension := 2, non_zero_count := 1, packed_element_count := 0,
            synthetic_clock_tick := 0, should_update_packed_storage := false }).filter
          fun r => decide ((
            { non_zero_indices := [1, 0], dense_values := [0, 5],
              packed_indices := [0, 0], packed_values := [0, 0],
              dimension := 2, non_zero_count := 1, packed_element_count := 0,
              synthetic_clock_tick := 0, should_update_packed_storage := false
              : Vector }).dense_values.getD r 0 = 0)) :=
  ⟨by decide,
    (c6_saxpy_fill_in_amended
      { non_zero_indices := [1, 0], dense_values := [0, 5],
        packed_indices := [0, 0], packed_values := [0, 0],
        dimension := 2, non_zero_count := 1, packed_element_count := 0,
        synthetic_clock_tick := 0, should_update_packed_storage := false }
      { non_zero_indices := [0, 0], dense_values := [1, 0],
        packed_indices := [0, 0], packed_values := [0, 0],
        dimension := 2, non_zero_count := 1, packed_element_count := 0,
        synthetic_clock_tick := 0, should_update_packed_storage := false }
      1 (by decide) (by decide) (by decide) (by decide) (by decide)).1⟩

theorem clear_count (v : Vector) : v.clear.non_zero_count = 0 := rfl

theorem clear_dense (v : Vector) :
    v.clear.dense_values =
      if v.non_zero_count < 0 ∨ (v.non_zero_count : ℚ) > (v.dimension : ℚ) * (3 / 10) then
        List.replicate v.dimension (0 : ℚ)
      else
        (Vector.liveList v).foldl (fun d i => d.set i 0) v.dense_values := rfl

theorem svs_clear_nzi (s : SparseVectorSum) : s.clear.non_zero_indices = [] := rfl

theorem svs_clear_values (s : SparseVectorSum) :
    s.clear.values =
      if 10 * s.non_zero_indices.length < 3 * s.values.length then
        s.non_zero_indices.foldl (fun d i => d.set i CompensatedDouble.zero) s.values
      else List.replicate s.values.length CompensatedDouble.zero := rfl

/-- Claim C5: after any scatter-add history (saxpy calls on a `Vector`
after `setup`, both `add` overloads on a `SparseVectorSum` after
construction), `clear()` empties the live tracking and every index reads
back as exact `0.0`, whichever branch the 30%-density heuristic selects.
The `Vector` half assumes the history kept the live count within the
dimension (otherwise the source writes out of bounds). -/
theorem c5_clear_resets :
    (∀ (d : ℕ) (ops : List (ℚ × Vector)),
      (applySaxpys (Vector.setup d) ops).non_zero_count.toNat ≤ d →
      (applySaxpys (Vector.setup d) ops).clear.non_zero_count = 0 ∧
      ∀ j, (applySaxpys (Vector.setup d) ops).clear.dense_values.getD j 0 = 0) ∧
    (∀ (d : ℕ) (ops : List AddOp),
      (applyAdds (SparseVectorSum.ofDimension d) ops).clear.non_zero_indices = [] ∧
      ∀ j, (applyAdds (SparseVectorSum.ofDimension d) ops).clear.get_value j = 0) := by
  constructor
  · intro d ops hfin
    have hW : VecUntouched (applySaxpys (Vector.setup d) ops) := by
      refine vecUntouched_applySaxpys ops (Vector.setup d) (vecUntouched_setup d)
        (Int.le_refl 0) ?_
      have : (Vector.setup d).non_zero_indices.length = d := List.length_replicate d 0
      rw [this]
      exact hfin
    refine ⟨clear_count _, ?_⟩
    intro j
    rw [clear_dense]
    by_cases hbr : (applySaxpys (Vector.setup d) ops).non_zero_count < 0 ∨
        ((applySaxpys (Vector.setup d) ops).non_zero_count : ℚ)
          > ((applySaxpys (Vector.setup d) ops).dimension : ℚ) * (3 / 10)
    · rw [if_pos hbr]
      exact getD_replicate (0 : ℚ) _ j
    · rw [if_neg hbr]
      by_cases hj : j ∈ Vector.liveList (applySaxpys (Vector.setup d) ops)
      · exact foldl_set_getD_mem (0 : ℚ) _ _ j hj
      · rw [foldl_set_getD_not_mem (0 : ℚ) _ _ j hj]
        exact hW j hj
  · intro d ops
    have hW : SvsUntouched (applyAdds (SparseVectorSum.ofDimension d) ops) :=
      svsUntouched_applyAdds ops _ (svsUntouched_ofDimension d)
    refine ⟨svs_clear_nzi _, ?_⟩
    intro j
    have hz : (applyAdds (SparseVectorSum.ofDimension d) ops).clear.values.getD j
        CompensatedDouble.zero = CompensatedDouble.zero := by
      rw [svs_clear_values]
      by_cases hbr : 10 * (applyAdds (SparseVectorSum.ofDimension d) ops).non_zero_indices.length
          < 3 * (applyAdds (SparseVectorSum.ofDimension d) ops).values.length
      · rw [if_pos hbr]
        by_cases hj : j ∈ (applyAdds (SparseVectorSum.ofDimension d) ops).non_zero_indices
        · exact foldl_set_getD_mem CompensatedDouble.zero _ _ j hj
        · rw [foldl_set_getD_not_mem CompensatedDouble.zero _ _ j hj]
          exact hW j hj
      · rw [if_neg hbr]
        exact getD_replicate CompensatedDouble.zero _ j
    show ((applyAdds (SparseVectorSum.ofDimension d) ops).clear.values.getD j
        CompensatedDouble.zero).toDouble = 0
    rw [hz]
    exact zero_toDouble

/-- Witness for C5: dimension 2, one saxpy filling index 0, then clear. -/
theorem c5_clear_resets_witness :
    ((applySaxpys (Vector.setup 2)
        [(1, { non_zero_indices := [0, 0], dense_values := [3, 0],
               packed_indices := [0, 0], packed_values := [0, 0],
               dimension := 2, non_zero_count := 1, packed_element_count := 0,
               synthetic_clock_tick := 0, should_update_packed_storage := false })]).non_zero_count.toNat ≤ 2) ∧
    (applySaxpys (Vector.setup 2)
        [(1, { non_zero_indices := [0, 0], dense_values := [3, 0],
               packed_indices := [0, 0], packed_values := [0, 0],
               dimension := 2, non_zero_count := 1, packed_element_count := 0,
               synthetic_clock_tick := 0, should_update_packed_storage := false })]).clear.non_zero_count = 0 ∧
    (applySaxpys (Vector.setup 2)
        [(1, { non_zero_indices := [0, 0], dense_values := [3, 0],
               packed_indices := [0, 0], packed_values := [0, 0],
               dimension := 2, non_zero_count := 1, packed_element_count := 0,
               synthetic_clock_tick := 0, should_update_packed_storage := false })]).clear.dense_values.getD 0 0 = 0 :=
  ⟨by decide,
    (c5_clear_resets.1 2
      [(1, { non_zero_indices := [0, 0], dense_values := [3, 0],
             packed_indices := [0, 0], packed_values := [0, 0],
             dimension := 2, non_zero_count := 1, packed_element_count := 0,
             synthetic_clock_tick := 0, should_update_packed_storage := false })] (by decide)).1,
    ((c5_clear_resets.1 2
      [(1, { non_zero_indices := [0, 0], dense_values := [3, 0],
             packed_indices := [0, 0], packed_values := [0, 0],
             dimension := 2, non_zero_count := 1, packed_element_count := 0,
             synthetic_clock_tick := 0, should_update_packed_storage := false })] (by decide)).2 0)⟩

theorem map_flush_getD (l : List ℚ) :
    ∀ j, (l.map fun val => if |val| < kTiny then 0 else val).getD j 0
      = if |l.getD j 0| < kTiny then 0 else l.getD j 0 := by
  induction l with
  | nil =>
    intro j
    have h0 : |(0:ℚ)| < kTiny := by
      rw [abs_zero]; exact kTiny_pos
    simp [List.getD, if_pos h0]
  | cons a t ih =>
    intro j
    cases j with
    | zero => rfl
    | succ j => exact ih j

/-- Claim C7: with a non-negative live count (held within the index-array
length), `prune_small_values` drops from the live list exactly the entries
whose magnitude is below `kTiny`, zeroes those dense entries, and re-packs
the survivors as a contiguous ordered filter of the old live list; with a
negative (invalidated) count it instead maps the whole dense array,
zeroing every value of magnitude below `kTiny`. -/
theorem c7_prune_small_values :
    (∀ v : Vector, 0 ≤ v.non_zero_count →
      v.non_zero_count.toNat ≤ v.non_zero_indices.length →
      Vector.liveList v.prune_small_values
          = (Vector.liveList v).filter (fun r => decide (kTiny ≤ |v.dense_values.getD r 0|)) ∧
      ∀ j, v.prune_small_values.dense_values.getD j 0
          = if j ∈ Vector.liveList v ∧ ¬ kTiny ≤ |v.dense_values.getD j 0| then 0
            else v.dense_values.getD j 0) ∧
    (∀ v : Vector, v.non_zero_count < 0 →
      ∀ j, v.prune_small_values.dense_values.getD j 0
          = if |v.dense_values.getD j 0| < kTiny then 0 else v.dense_values.getD j 0) := by
  constructor
  · intro v h0 hlen
    have hn : (Vector.liveList v).length = v.non_zero_count.toNat := by
      rw [Vector.liveList, List.length_take]
      exact Nat.min_eq_left hlen
    have hbridge := pruneLoop_bridge (Vector.liveList v) 0 0
      v.non_zero_indices v.dense_values (Nat.le_refl 0)
      (by rw [hn, Nat.zero_add]; exact hlen)
      (by
        intro j hj
        rw [Nat.zero_add]
        rw [hn] at hj
        exact (getD_take 0 v.non_zero_indices hj).symm)
    rw [hn] at hbridge
    obtain ⟨h1, h2, h3, _⟩ := hbridge
    have hnotneg : ¬ v.non_zero_count < 0 := not_lt.mpr h0
    constructor
    · have hlift : Vector.liveList v.prune_small_values
          = (Vector.pruneLoop v.non_zero_count.toNat 0 0 v.non_zero_indices v.dense_values).2.1.take
            (Vector.pruneLoop v.non_zero_count.toNat 0 0 v.non_zero_indices v.dense_values).1 := by
        simp only [Vector.liveList, Vector.prune_small_values, if_neg hnotneg, Int.toNat_ofNat]
      rw [hlift, h2, List.take_zero, List.nil_append]
      exact pruneRef_fst (Vector.liveList v) v.dense_values
    · intro j
      have hdense : v.prune_small_values.dense_values
          = (Vector.pruneLoop v.non_zero_count.toNat 0 0 v.non_zero_indices v.dense_values).2.2 := by
        simp only [Vector.prune_small_values, if_neg hnotneg]
      rw [hdense, h3]
      exact pruneRef_snd (Vector.liveList v) v.dense_values j
  · intro v h0 j
    have hdense : v.prune_small_values.dense_values
        = v.dense_values.map fun val => if |val| < kTiny then 0 else val := by
      simp only [Vector.prune_small_values, if_pos h0]
    rw [hdense]
    exact map_flush_getD v.dense_values j

/-- Witness for C7: live list `[0, 1, 2]` over dense `[1, 10^-15, 5]`; the
middle entry is below `kTiny`, so pruning repacks the live list to `[0, 2]`
and zeroes index 1. -/
theorem c7_prune_small_values_witness :
    ((0:ℤ) ≤ 3) ∧
    Vector.liveList
      ({ non_zero_indices := [0, 1, 2], dense_values := [1, 1 / ((10 ^ 15 : ℕ) : ℚ), 5],
         packed_indices := [0, 0, 0], packed_values := [0, 0, 0],
         dimension := 3, non_zero_count := 3, packed_element_count := 0,
         synthetic_clock_tick := 0, should_update_packed_storage := false : Vector }).prune_small_values
      = (Vector.liveList
          { non_zero_indices := [0, 1, 2], dense_values := [1, 1 / ((10 ^ 15 : ℕ) : ℚ), 5],
            packed_indices := [0, 0, 0], packed_values := [0, 0, 0],
            dimension := 3, non_zero_count := 3, packed_element_count := 0,
            synthetic_clock_tick := 0, should_update_packed_storage := false }).filter
        (fun r => decide (kTiny ≤ |(
          { non_zero_indices := [0, 1, 2], dense_values := [1, 1 / ((10 ^ 15 : ℕ) : ℚ), 5],
            packed_indices := [0, 0, 0], packed_values := [0, 0, 0],
            dimension := 3, non_zero_count := 3, packed_element_count := 0,
            synthetic_clock_tick := 0, should_update_packed_storage := false
            : Vector }).dense_values.getD r 0|)) :=
  ⟨by decide,
    (c7_prune_small_values.1
      { non_zero_indices := [0, 1, 2], dense_values := [1, 1 / ((10 ^ 15 : ℕ) : ℚ), 5],
        packed_indices := [0, 0, 0], packed_values := [0, 0, 0],
        dimension := 3, non_zero_count := 3, packed_element_count := 0,
        synthetic_clock_tick := 0, should_update_packed_storage := false }
      (by decide) (by decide)).1⟩

/-- Claim C8: `round` is by definition `floor(x + 0.5)`, so ties round
toward positive infinity (`round(-0.5) = 0`, `round(-5.5) = -5`, never away
from zero), and the concrete values hold: `floor/ceil/round` of `5.7` are
`5, 6, 6`, of `-5.7` they are `-6, -5, -6`, `floor` and `ceil` of `0.5`
are `0` and `1`, and of `-0.5` they are `-1` and `0`. -/
theorem c8_floor_ceil_round :
    (∀ x : CompensatedDouble,
      CompensatedDouble.cround x = CompensatedDouble.cfloor (x.addDouble (1 / 2))) ∧
    (CompensatedDouble.cfloor (CompensatedDouble.ofDouble (57 / 10))).toDouble = 5 ∧
    (CompensatedDouble.cceil (CompensatedDouble.ofDouble (57 / 10))).toDouble = 6 ∧
    (CompensatedDouble.cround (CompensatedDouble.ofDouble (57 / 10))).toDouble = 6 ∧
    (CompensatedDouble.cfloor (CompensatedDouble.ofDouble (-57 / 10))).toDouble = -6 ∧
    (CompensatedDouble.cceil (CompensatedDouble.ofDouble (-57 / 10))).toDouble = -5 ∧
    (CompensatedDouble.cround (CompensatedDouble.ofDouble (-57 / 10))).toDouble = -6 ∧
    (CompensatedDouble.cfloor (CompensatedDouble.ofDouble (1 / 2))).toDouble = 0 ∧
    (CompensatedDouble.cceil (CompensatedDouble.ofDouble (1 / 2))).toDouble = 1 ∧
    (CompensatedDouble.cfloor (CompensatedDouble.ofDouble (-1 / 2))).toDouble = -1 ∧
    (CompensatedDouble.cceil (CompensatedDouble.ofDouble (-1 / 2))).toDouble = 0 ∧
    (CompensatedDouble.cround (CompensatedDouble.ofDouble (-1 / 2))).toDouble = 0 ∧
    (CompensatedDouble.cround (CompensatedDouble.ofDouble (-11 / 2))).toDouble = -5 :=
  ⟨fun _ => rfl, by decide, by decide, by decide, by decide, by decide, by decide,
    by decide, by decide, by decide, by decide, by decide, by decide⟩

/-- Claim C9: `sqrt(CompensatedDouble)` returns the exact zero value
whenever the native seed `sqrt(hi + lo)` is zero (the guard that avoids the
Newton-step division), and `sqrt(4.0) = 2.0`, `sqrt(0.0) = 0.0`. -/
theorem c9_sqrt_guard :
    (∀ v : CompensatedDouble,
      CompensatedDouble.nativeSqrt (v.hi + v.lo) = 0 →
      CompensatedDouble.csqrt v = CompensatedDouble.ofDouble 0) ∧
    (CompensatedDouble.csqrt (CompensatedDouble.ofDouble 4)).toDouble = 2 ∧
    (CompensatedDouble.csqrt (CompensatedDouble.ofDouble 0)).toDouble = 0 := by
  refine ⟨?_, by decide, by decide⟩
  intro v h
  simp only [CompensatedDouble.csqrt, if_pos h]

/-- Witness for C9: the value `(1, -1)` collapses to `0`, so the seed is
zero and `sqrt` returns exact zero. -/
theorem c9_sqrt_guard_witness :
    CompensatedDouble.nativeSqrt
        ((⟨1, -1⟩ : CompensatedDouble).hi + (⟨1, -1⟩ : CompensatedDouble).lo) = 0 ∧
    CompensatedDouble.csqrt ⟨1, -1⟩ = CompensatedDouble.ofDouble 0 :=
  ⟨by decide, c9_sqrt_guard.1 ⟨1, -1⟩ (by decide)⟩

end Kalix
